import Mathlib

/-!
Shallow embedding of the rule-based extraction core of the Musafir OCR/NLP
project, and proofs about its specification claims.

Texts are embedded as `List Char`.  Python `re` patterns are embedded as
bespoke matchers that implement the exact pattern of the source, including
Python's leftmost-search and greedy/backtracking preference order (where the
character classes adjacent to a greedy quantifier are disjoint, the greedy
maximal munch is the unique viable choice and is implemented directly; where
genuine backtracking is possible, candidate splits are enumerated in Python's
preference order).  Python `dict`s are embedded as insertion-ordered
association lists.

Sources embedded:
  - src/nlp_extractor.py   (extract_passenger_info, extract_entities)
  - src/query_parser.py    (normalize_city, parse_date, parse_flight_query)
  - src/frame_processor.py (merge_entities)
  - src/main.py            (the rule-based QA core of ask_endpoint)

Note: several regexes in src/query_parser.py are written without backslashes
(`(d+)s*(?:male|man|men)` instead of `(\d+)\s*...`), so they match the
literal characters 'd', 's', 'w' rather than digit/space/word classes.  The
embedding reproduces these patterns exactly as written.
-/

/-! ### Basic character classes and string helpers -/

/-- Convert a string literal to the `List Char` representation used throughout. -/
def sl (s : String) : List Char := s.data

/-- ASCII lower-casing of one character (model of Python `str.lower` on the
ASCII inputs this core handles). -/
def lowerChar (c : Char) : Char :=
  if 'A' ≤ c ∧ c ≤ 'Z' then Char.ofNat (c.toNat + 32) else c

/-- ASCII upper-casing of one character (model of Python `str.upper`). -/
def upperChar (c : Char) : Char :=
  if 'a' ≤ c ∧ c ≤ 'z' then Char.ofNat (c.toNat - 32) else c

def lowerL (l : List Char) : List Char := l.map lowerChar

def upperL (l : List Char) : List Char := l.map upperChar

def isDigitC (c : Char) : Bool := '0' ≤ c && c ≤ '9'

def isLowerC (c : Char) : Bool := 'a' ≤ c && c ≤ 'z'

def isUpperC (c : Char) : Bool := 'A' ≤ c && c ≤ 'Z'

def isLetterC (c : Char) : Bool := isLowerC c || isUpperC c

/-- The regex `\s` class (ASCII part: space, tab, newline, return, vtab, formfeed). -/
def isWsC (c : Char) : Bool :=
  c = ' ' || c = '\t' || c = '\n' || c = '\r' || c = '\x0b' || c = '\x0c'

/-- The regex `\w` class (ASCII part), used for `\b` word boundaries. -/
def isWordC (c : Char) : Bool := isLetterC c || isDigitC c || c = '_'

/-- The class `[A-Z0-9]` of the booking-id patterns. -/
def isUpAl (c : Char) : Bool := isUpperC c || isDigitC c

/-- The class `[:\s]` used after labels such as `Name`, `PNR`, `Amount`. -/
def isColWs (c : Char) : Bool := c = ':' || isWsC c

/-- Python `needle in haystack` (substring containment), scanning left to right. -/
def litM : List Char → List Char → Option (List Char)
  | [], l => some l
  | _ :: _, [] => none
  | c :: w, a :: l => if a = c then litM w l else none

/-- Case-insensitive literal matcher: `w` is given lower-cased, text characters
are folded with `lowerChar` (model of `re.IGNORECASE` on literals). -/
def litCI : List Char → List Char → Option (List Char)
  | [], l => some l
  | _ :: _, [] => none
  | c :: w, a :: l => if lowerChar a = c then litCI w l else none

/-- Python `needle in haystack` for strings. -/
def inL (p : List Char) : List Char → Bool
  | [] => (litM p []).isSome
  | c :: t => (litM p (c :: t)).isSome || inL p t

/-- Python `str.strip()`: drop leading and trailing whitespace. -/
def stripL (l : List Char) : List Char :=
  ((l.dropWhile isWsC).reverse.dropWhile isWsC).reverse

/-- First character exists and is a letter. -/
def headIsLetter (l : List Char) : Bool :=
  match l with
  | c :: _ => isLetterC c
  | [] => false

/-- Last character exists and is a letter. -/
def lastIsLetter (l : List Char) : Bool := headIsLetter l.reverse

/-- Left-biased choice, the semantics of trying regex alternatives in order. -/
def oor (a b : Option α) : Option α :=
  match a with
  | some x => some x
  | none => b

/-- Run an anchored matcher at every start position, leftmost first: the
semantics of `re.search`. -/
def scanOpt (f : List Char → Option α) : List Char → Option α
  | [] => f []
  | c :: t =>
    match f (c :: t) with
    | some a => some a
    | none => scanOpt f t

/-- Like `scanOpt` but the matcher also sees the character preceding the start
position (needed for `\b` word boundaries). -/
def scanOptP (f : Option Char → List Char → Option α) : Option Char → List Char → Option α
  | pv, [] => f pv []
  | pv, c :: t =>
    match f pv (c :: t) with
    | some a => some a
    | none => scanOptP f (some c) t

/-- Decimal digits of a number, as Python `str(int)` / f-string formatting. -/
def natStr (n : Nat) : List Char := Nat.toDigits 10 n

/-- Value of a digit string (used where a capture is all digits by construction). -/
def natOfDigits (l : List Char) : Nat :=
  l.foldl (fun n c => n * 10 + (c.toNat - 48)) 0

/-- Model of Python `int(s)` on a regex capture: succeeds exactly on nonempty
all-digit strings (captures in this code never carry signs or spaces), raises
(`none`) otherwise. -/
def pyInt (l : List Char) : Option Nat :=
  if l ≠ [] ∧ l.all isDigitC then some (natOfDigits l) else none

/-! ### Insertion-ordered dictionaries (Python `dict`) -/

/-- Python `d[k] = v`: replace in place if the key exists, else append. -/
def dset [DecidableEq κ] : List (κ × α) → κ → α → List (κ × α)
  | [], k, v => [(k, v)]
  | (k', v') :: t, k, v =>
    if k' = k then (k, v) :: t else (k', v') :: dset t k v

/-- Python `d.get(k)` / `k in d`. -/
def dget [DecidableEq κ] : List (κ × α) → κ → Option α
  | [], _ => none
  | (k', v) :: t, k => if k' = k then some v else dget t k

/-- Python `d.get(k, dflt)`. -/
def dgetD [DecidableEq κ] (d : List (κ × α)) (k : κ) (dflt : α) : α :=
  (dget d k).getD dflt

/-! ### Passenger counts (`PassengerCount` mapping) -/

/-- The five count categories plus `total`: the exact key set of the Python
passenger dicts. -/
inductive PKey where
  | adult_male | adult_female | minor_female | minor_male | minor | total
deriving DecidableEq, Repr

abbrev PDict := List (PKey × Nat)

/-- The Python string of a passenger key (for `str(dict)` formatting). -/
def pkeyStr : PKey → List Char
  | .adult_male => sl "adult_male"
  | .adult_female => sl "adult_female"
  | .minor_female => sl "minor_female"
  | .minor_male => sl "minor_male"
  | .minor => sl "minor"
  | .total => sl "total"

/-- Sum of the values of all keys other than `total`
(`sum(v for k, v in passengers.items() if k != 'total')`). -/
def sumNT : PDict → Nat
  | [] => 0
  | (k, v) :: t => (if k = PKey.total then 0 else v) + sumNT t

/-- Sum of all values (`sum(v for v in passengers.values())`). -/
def sumVals : PDict → Nat
  | [] => 0
  | (_, v) :: t => v + sumVals t

/-! ### nlp_extractor.extract_passenger_info

Patterns (all with `re.IGNORECASE`):
  adult male    `(\d+)\s*(?:adult\s*)?(?:men|man|male)`
  adult female  `(\d+)\s*(?:adult\s*)?(?:women|woman|female)`
  minor female  `(\d+)\s*female\s*minor`
  minor male    `(\d+)\s*male\s*minor`
  generic minor `(\d+)\s*(kids|children|child|minor)`
-/

/-- Anchored matcher for `(\d+)\s*<after>`: maximal digit run (the capture),
maximal whitespace run, then the rest of the pattern checked by `after`.
Digits, whitespace and the letters starting every `after` are pairwise
disjoint classes, so maximal munch is the regex backtracking semantics. -/
def tryPCnt (after : List Char → Bool) (l : List Char) : Option (List Char) :=
  let ds := l.takeWhile isDigitC
  if ds = [] then none
  else if after ((l.dropWhile isDigitC).dropWhile isWsC) then some ds else none

/-- Rest of the adult-male pattern: `(?:adult\s*)?(?:men|man|male)`. -/
def afterAdultMale (r : List Char) : Bool :=
  (match litCI (sl "adult") r with
   | some r2 => (oor (litCI (sl "men") (r2.dropWhile isWsC))
       (oor (litCI (sl "man") (r2.dropWhile isWsC))
         (litCI (sl "male") (r2.dropWhile isWsC)))).isSome
   | none => false) ||
  (oor (litCI (sl "men") r) (oor (litCI (sl "man") r) (litCI (sl "male") r))).isSome

/-- Rest of the adult-female pattern: `(?:adult\s*)?(?:women|woman|female)`. -/
def afterAdultFemale (r : List Char) : Bool :=
  (match litCI (sl "adult") r with
   | some r2 => (oor (litCI (sl "women") (r2.dropWhile isWsC))
       (oor (litCI (sl "woman") (r2.dropWhile isWsC))
         (litCI (sl "female") (r2.dropWhile isWsC)))).isSome
   | none => false) ||
  (oor (litCI (sl "women") r) (oor (litCI (sl "woman") r) (litCI (sl "female") r))).isSome

/-- Rest of the minor-female pattern: `female\s*minor`. -/
def afterFemaleMinor (r : List Char) : Bool :=
  (match litCI (sl "female") r with
   | some r2 => (litCI (sl "minor") (r2.dropWhile isWsC)).isSome
   | none => false)

/-- Rest of the minor-male pattern: `male\s*minor`. -/
def afterMaleMinor (r : List Char) : Bool :=
  (match litCI (sl "male") r with
   | some r2 => (litCI (sl "minor") (r2.dropWhile isWsC)).isSome
   | none => false)

/-- Rest of the generic-minor pattern: `(kids|children|child|minor)`. -/
def afterGenericMinor (r : List Char) : Bool :=
  (oor (litCI (sl "kids") r) (oor (litCI (sl "children") r)
    (oor (litCI (sl "child") r) (litCI (sl "minor") r)))).isSome

/-- src/nlp_extractor.py, extract_passenger_info.  The captures of `(\d+)` are
digit strings by construction, so `int()` always succeeds and is embedded as
`natOfDigits`. -/
def extract_passenger_info (text : List Char) : PDict :=
  let p0 : PDict := []
  let p1 := match scanOpt (tryPCnt afterAdultMale) text with
    | some g => dset p0 .adult_male (natOfDigits g)
    | none => p0
  let p2 := match scanOpt (tryPCnt afterAdultFemale) text with
    | some g => dset p1 .adult_female (natOfDigits g)
    | none => p1
  let p3 := match scanOpt (tryPCnt afterFemaleMinor) text with
    | some g => dset p2 .minor_female (natOfDigits g)
    | none => p2
  let p4 := match scanOpt (tryPCnt afterMaleMinor) text with
    | some g => dset p3 .minor_male (natOfDigits g)
    | none => p3
  let p5 := match scanOpt (tryPCnt afterGenericMinor) text with
    | some g => dset p4 .minor (natOfDigits g)
    | none => p4
  if p5 = [] then p5 else dset p5 .total (sumVals p5)

/-! ### Calendar arithmetic (model of Python `datetime.date`)

Dates are modelled by their proleptic-Gregorian ordinal (Rata Die:
ordinal 1 = 0001-01-01, as `datetime.date.toordinal`).  Python's
`date.weekday()` is `(ordinal + 6) % 7` (Monday = 0). -/

def isLeap (y : Nat) : Bool := y % 4 = 0 && (y % 100 ≠ 0 || y % 400 = 0)

def daysInMonth (y m : Nat) : Nat :=
  if m = 1 then 31 else if m = 2 then (if isLeap y then 29 else 28)
  else if m = 3 then 31 else if m = 4 then 30 else if m = 5 then 31
  else if m = 6 then 30 else if m = 7 then 31 else if m = 8 then 31
  else if m = 9 then 30 else if m = 10 then 31 else if m = 11 then 30 else 31

/-- Proleptic-Gregorian ordinal of a civil date (days-from-civil algorithm). -/
def toOrdinal (y m d : Nat) : Nat :=
  let yy := if m ≤ 2 then y - 1 else y
  let era := yy / 400
  let yoe := yy % 400
  let mp := if 2 < m then m - 3 else m + 9
  let doy := (153 * mp + 2) / 5 + (d - 1)
  let doe := yoe * 365 + yoe / 4 - yoe / 100 + doy
  era * 146097 + doe - 305

/-- Civil date `(y, m, d)` of a proleptic-Gregorian ordinal (civil-from-days). -/
def fromOrdinal (o : Nat) : Nat × Nat × Nat :=
  let z := o + 305
  let era := z / 146097
  let doe := z % 146097
  let yoe := (doe - doe / 1460 + doe / 36524 - doe / 146096) / 365
  let yy := yoe + era * 400
  let doy := doe - (365 * yoe + yoe / 4 - yoe / 100)
  let mp := (5 * doy + 2) / 153
  let d := doy - (153 * mp + 2) / 5 + 1
  let m := if mp < 10 then mp + 3 else mp - 9
  (if m ≤ 2 then yy + 1 else yy, m, d)

/-- Zero-padded decimal rendering of width `w`. -/
def padNum (w n : Nat) : List Char :=
  List.replicate (w - (natStr n).length) '0' ++ natStr n

/-- `date.strftime("%Y-%m-%d")`.  Years are zero-padded to four digits (for
years below 1000 CPython's output is platform-dependent; all dates this spec
exercises have four-digit years). -/
def fmtOrd (o : Nat) : List Char :=
  let c := fromOrdinal o
  padNum 4 c.1 ++ sl "-" ++ padNum 2 c.2.1 ++ sl "-" ++ padNum 2 c.2.2

/-- `datetime.strptime(s, "%Y-%m-%d")`: exactly `dddd-dd-dd`, a valid civil
date with year at least 1; returns the ordinal, `none` models `ValueError`. -/
def strptimeYMD (l : List Char) : Option Nat :=
  match l with
  | [y1, y2, y3, y4, s1, m1, m2, s2, d1, d2] =>
    if isDigitC y1 && isDigitC y2 && isDigitC y3 && isDigitC y4 &&
       s1 = '-' && isDigitC m1 && isDigitC m2 && s2 = '-' &&
       isDigitC d1 && isDigitC d2 then
      let y := natOfDigits [y1, y2, y3, y4]
      let m := natOfDigits [m1, m2]
      let d := natOfDigits [d1, d2]
      if 1 ≤ y ∧ 1 ≤ m ∧ m ≤ 12 ∧ 1 ≤ d ∧ d ≤ daysInMonth y m then
        some (toOrdinal y m d)
      else none
    else none
  | _ => none

/-- Python `x or 7` on the weekday-delta expression. -/
def orSeven (n : Nat) : Nat := if n = 0 then 7 else n

/-- Weekday delta `(target - current.weekday() + 7) % 7 or 7` of parse_date,
with `current.weekday() = (o + 6) % 7`. -/
def daysAhead (target o : Nat) : Nat :=
  orSeven ((target + 7 - (o + 6) % 7) % 7)

/-- src/query_parser.py, parse_date.  `fz` abstracts the external
`dateutil.parser.parse(date_text, fuzzy=True)` collaborator: `some o` is a
successful parse to the date of ordinal `o`, `none` is a raise (which the
source catches, returning the text unchanged).  `.error` models the
`ValueError` of `strptime` on an invalid reference date. -/
def parse_date (dt cur : List Char) (fz : List Char → Option Nat) :
    Except Unit (List Char) :=
  match strptimeYMD cur with
  | none => .error ()
  | some o =>
    let l := lowerL dt
    if inL (sl "today") l then .ok (fmtOrd o)
    else if inL (sl "tomorrow") l then .ok (fmtOrd (o + 1))
    else if inL (sl "next") l then
      let da :=
        if inL (sl "monday") l then daysAhead 0 o
        else if inL (sl "tuesday") l then daysAhead 1 o
        else if inL (sl "wednesday") l then daysAhead 2 o
        else if inL (sl "thursday") l then daysAhead 3 o
        else if inL (sl "friday") l then daysAhead 4 o
        else if inL (sl "saturday") l then daysAhead 5 o
        else if inL (sl "sunday") l then daysAhead 6 o
        else 7
      .ok (fmtOrd (o + da))
    else
      match fz dt with
      | some o2 => .ok (fmtOrd o2)
      | none => .ok dt

/-! ### City normalization (src/query_parser.py, normalize_city) -/

def CITY_TO_IATA : List (List Char × List Char) :=
  [(sl "delhi", sl "DEL"), (sl "mumbai", sl "BOM"), (sl "bangalore", sl "BLR"),
   (sl "chennai", sl "MAA"), (sl "kolkata", sl "CCU"), (sl "hyderabad", sl "HYD"),
   (sl "pune", sl "PNQ"), (sl "goa", sl "GOI"), (sl "ajman", sl "AJM"),
   (sl "dubai", sl "DXB"), (sl "abu dhabi", sl "AUH"), (sl "sharjah", sl "SHJ"),
   (sl "new york", sl "JFK"), (sl "london", sl "LHR"), (sl "paris", sl "CDG"),
   (sl "singapore", sl "SIN")]

def misspellTable : List (List Char × List Char) :=
  [(sl "delhee", sl "delhi"), (sl "deli", sl "delhi"), (sl "mumbi", sl "mumbai"),
   (sl "bangalor", sl "bangalore"), (sl "bangaluru", sl "bangalore")]

def normalize_city (city : List Char) : List Char :=
  let c := stripL (lowerL city)
  let c2 := dgetD misspellTable c c
  dgetD CITY_TO_IATA c2 (upperL (c2.take 3))

/-! ### src/query_parser.py, parse_flight_query

The route, date and passenger patterns here are written without backslashes
in the source, so `s+`, `d+`, `w+` match runs of the literal characters
's', 'd', 'w'. -/

/-- Candidate `(group, rest)` splits for a greedy `([a-z]+)`: prefixes of the
maximal lower-case run at this position, longest (the greedy preference)
first. -/
def letterSplits (l : List Char) : List (List Char × List Char) :=
  let run := l.takeWhile isLowerC
  let rest := l.dropWhile isLowerC
  (List.range run.length).reverse.map fun i => (run.take (i + 1), run.drop (i + 1) ++ rest)

/-- Candidate rests for a greedy literal `s+`: the suffixes left after
consuming k of the leading 's' characters, largest k first. -/
def sEnum (l : List Char) : List (List Char) :=
  let m := (l.takeWhile (fun c => c = 's')).length
  (List.range m).reverse.map fun i => l.drop (i + 1)

/-- Anchored matcher for the bare route pattern
`([a-z]+)s+(?:to|for)s+([a-z]+)`, exploring splits in Python's backtracking
order ("to" and "for" start with distinct characters, so at most one literal
alternative applies at any rest). -/
def tryR2At (l : List Char) : Option (List Char × List Char) :=
  (letterSplits l).findSome? fun g1r =>
    (sEnum g1r.2).findSome? fun r2 =>
      (oor (litM (sl "to") r2) (litM (sl "for") r2)).bind fun r3 =>
        (sEnum r3).findSome? fun r4 =>
          match letterSplits r4 with
          | g2r :: _ => some (g1r.1, g2r.1)
          | [] => none

/-- Anchored matcher for the labelled route pattern
`(?:from|leaving)s+([a-z]+)s+(?:to|for)s+([a-z]+)`; after the label and the
literal `s+` the rest of the pattern coincides with the bare route pattern. -/
def tryR1At (l : List Char) : Option (List Char × List Char) :=
  (oor (litM (sl "from") l) (litM (sl "leaving") l)).bind fun r =>
    (sEnum r).findSome? tryR2At

/-- Date alternative `nexts+w+` (literal 'next', literal 's' run, literal 'w'
run); the capture is the matched text. -/
def tryAltNext (l : List Char) : Option (List Char) :=
  (litM (sl "next") l).bind fun r =>
    let s := r.takeWhile (fun c => c = 's')
    if s = [] then none
    else
      let r2 := r.dropWhile (fun c => c = 's')
      let w := r2.takeWhile (fun c => c = 'w')
      if w = [] then none else some (sl "next" ++ s ++ w)

/-- Date alternative `w+day` (literal 'w' run then literal "day"). -/
def tryAltWday (l : List Char) : Option (List Char) :=
  let w := l.takeWhile (fun c => c = 'w')
  if w = [] then none
  else
    match litM (sl "day") (l.dropWhile (fun c => c = 'w')) with
    | some _ => some (w ++ sl "day")
    | none => none

/-- Greedy counted run of a class: consume exactly k characters of class `p`,
trying the counts of `ks` in order (regex `{m,n}` preference), then continue. -/
def cntTake (p : Char → Bool) (ks : List Nat) (l : List Char)
    (next : List Char → Option (List Char)) : Option (List Char) :=
  ks.findSome? fun k =>
    if (l.take k).length = k && (l.take k).all p then
      (next (l.drop k)).map fun cap => l.take k ++ cap
    else none

/-- A slash-or-dash separator character. -/
def sepM (l : List Char) : Option (Char × List Char) :=
  match l with
  | c :: t => if c = '/' || c = '-' then some (c, t) else none
  | [] => none

/-- Date alternative of literal-'d' runs: d{1,2}, slash-or-dash, d{1,2},
slash-or-dash, d{2,4}. -/
def tryAltDSlash (l : List Char) : Option (List Char) :=
  cntTake (fun c => c = 'd') [2, 1] l fun l1 =>
    (sepM l1).bind fun s1 =>
      (cntTake (fun c => c = 'd') [2, 1] s1.2 fun l2 =>
        (sepM l2).bind fun s2 =>
          (cntTake (fun c => c = 'd') [4, 3, 2] s2.2 fun _ => some []).map
            fun cap2 => s2.1 :: cap2).map
        fun cap1 => s1.1 :: cap1

/-- The date group alternation of the first query date pattern:
nexts+w+, w+day, tomorrow, today, or the numeric d-run form. -/
def dateAlt5 (l : List Char) : Option (List Char) :=
  oor (tryAltNext l) (oor (tryAltWday l)
    (oor ((litM (sl "tomorrow") l).map fun _ => sl "tomorrow")
      (oor ((litM (sl "today") l).map fun _ => sl "today") (tryAltDSlash l))))

/-- Anchored matcher for the first query date pattern `ons+(<dateAlt5>)`. -/
def tryQ1At (l : List Char) : Option (List Char) :=
  (litM (sl "on") l).bind fun r =>
    (sEnum r).findSome? dateAlt5

/-- Anchored matcher for the second query date pattern `(nexts+w+|w+day)`. -/
def tryQ2At (l : List Char) : Option (List Char) :=
  oor (tryAltNext l) (tryAltWday l)

/-- Anchored matcher for the broken passenger-count patterns
`(d+)s*<after>`: maximal run of literal 'd' (the capture), maximal run of
literal 's', then the rest of the pattern checked by `after`. -/
def tryCnt (after : List Char → Bool) (l : List Char) : Option (List Char) :=
  let ds := l.takeWhile (fun c => c = 'd')
  if ds = [] then none
  else if after ((l.dropWhile (fun c => c = 'd')).dropWhile (fun c => c = 's'))
  then some ds else none

/-- Rest of `(d+)s*(?:adults*)?(?:male|man|men)`. -/
def afterQMale (r : List Char) : Bool :=
  (match litM (sl "adult") r with
   | some r2 => (oor (litM (sl "male") (r2.dropWhile (fun c => c = 's')))
       (oor (litM (sl "man") (r2.dropWhile (fun c => c = 's')))
         (litM (sl "men") (r2.dropWhile (fun c => c = 's'))))).isSome
   | none => false) ||
  (oor (litM (sl "male") r) (oor (litM (sl "man") r) (litM (sl "men") r))).isSome

/-- Rest of `(d+)s*men`. -/
def afterQMen (r : List Char) : Bool := (litM (sl "men") r).isSome

/-- Rest of `(d+)s*(?:adults*)?(?:female|woman|women)`. -/
def afterQFemale (r : List Char) : Bool :=
  (match litM (sl "adult") r with
   | some r2 => (oor (litM (sl "female") (r2.dropWhile (fun c => c = 's')))
       (oor (litM (sl "woman") (r2.dropWhile (fun c => c = 's')))
         (litM (sl "women") (r2.dropWhile (fun c => c = 's'))))).isSome
   | none => false) ||
  (oor (litM (sl "female") r) (oor (litM (sl "woman") r) (litM (sl "women") r))).isSome

/-- Rest of `(d+)s*women`. -/
def afterQWomen (r : List Char) : Bool := (litM (sl "women") r).isSome

/-- Rest of `(d+)s*(?:females*)?minor`. -/
def afterQFMinor (r : List Char) : Bool :=
  (match litM (sl "female") r with
   | some r2 => (litM (sl "minor") (r2.dropWhile (fun c => c = 's'))).isSome
   | none => false) ||
  (litM (sl "minor") r).isSome

/-- Rest of `(d+)s*(?:males*)?minor`. -/
def afterQMMinor (r : List Char) : Bool :=
  (match litM (sl "male") r with
   | some r2 => (litM (sl "minor") (r2.dropWhile (fun c => c = 's'))).isSome
   | none => false) ||
  (litM (sl "minor") r).isSome

/-- Rest of `(d+)s*(?:child|children|kid)`. -/
def afterQChild (r : List Char) : Bool :=
  (oor (litM (sl "child") r) (oor (litM (sl "children") r) (litM (sl "kid") r))).isSome

/-- Passenger-count section of parse_flight_query: the capture of a matching
pattern is fed to `int()` (`pyInt`); `none` from `pyInt` models the
`ValueError` raise. -/
def passengerExtract (ql : List Char) : Except Unit PDict :=
  let p0 : PDict := []
  let stepM : Except Unit PDict :=
    match oor (scanOpt (tryCnt afterQMale) ql) (scanOpt (tryCnt afterQMen) ql) with
    | some g =>
      match pyInt g with
      | some n => .ok (dset p0 .adult_male n)
      | none => .error ()
    | none => .ok p0
  match stepM with
  | .error e => .error e
  | .ok p1 =>
    let stepF : Except Unit PDict :=
      match oor (scanOpt (tryCnt afterQFemale) ql) (scanOpt (tryCnt afterQWomen) ql) with
      | some g =>
        match pyInt g with
        | some n => .ok (dset p1 .adult_female n)
        | none => .error ()
      | none => .ok p1
    match stepF with
    | .error e => .error e
    | .ok p2 =>
      let stepMi : Except Unit PDict :=
        match oor (scanOpt (tryCnt afterQFMinor) ql)
            (oor (scanOpt (tryCnt afterQMMinor) ql) (scanOpt (tryCnt afterQChild) ql)) with
        | some g =>
          match pyInt g with
          | some cnt =>
            if inL (sl "female") ql && inL (sl "minor") ql then
              .ok (dset p2 .minor_female cnt)
            else if inL (sl "male") ql && inL (sl "minor") ql then
              .ok (dset p2 .minor_male cnt)
            else
              .ok (dset p2 .minor (dgetD p2 .minor 0 + cnt))
          | none => .error ()
        | none => .ok p2
      match stepMi with
      | .error e => .error e
      | .ok p3 =>
        let total := sumNT p3
        let p4 := dset p3 .total total
        if total = 0 then .ok (dset (dset p4 .adult_male 1) .total 1)
        else .ok p4

/-- The travel-intent record built by parse_flight_query (the result dict). -/
structure TravelIntent where
  travel_intent : List Char
  origin : Option (List Char)
  destination : Option (List Char)
  travel_date : Option (List Char)
  time_preference : Option (List Char)
  passengers : PDict
deriving DecidableEq, Repr

/-- src/query_parser.py, parse_flight_query.  `fz` abstracts the external
dateutil fuzzy parser (see parse_date); `.error` models an uncaught raise
(`ValueError` from `int()` or from `strptime` on the reference date). -/
def parse_flight_query (query cur : List Char) (fz : List Char → Option Nat) :
    Except Unit TravelIntent :=
  let ql := lowerL query
  let od : Option (List Char × List Char) :=
    match scanOpt tryR1At ql with
    | some r => some r
    | none => scanOpt tryR2At ql
  let intent :=
    if inL (sl "round trip") ql || inL (sl "return") ql || inL (sl "round-trip") ql
    then sl "round_trip" else sl "one_way"
  let dm : Option (List Char) :=
    match scanOpt tryQ1At ql with
    | some g => some g
    | none => scanOpt tryQ2At ql
  let tdE : Except Unit (Option (List Char)) :=
    match dm with
    | some g =>
      match parse_date g cur fz with
      | .ok d => .ok (some d)
      | .error e => .error e
    | none => .ok none
  match tdE with
  | .error e => .error e
  | .ok td =>
    let tp : Option (List Char) :=
      if inL (sl "morning") ql then some (sl "morning")
      else if inL (sl "afternoon") ql then some (sl "afternoon")
      else if inL (sl "evening") ql then some (sl "evening")
      else if inL (sl "night") ql then some (sl "night")
      else none
    match passengerExtract ql with
    | .error e => .error e
    | .ok pd =>
      .ok { travel_intent := intent
            origin := od.map fun r => normalize_city r.1
            destination := od.map fun r => normalize_city r.2
            travel_date := td
            time_preference := tp
            passengers := pd }

/-! ### src/nlp_extractor.py, extract_entities -/

/-- Length of `dropWhile` never exceeds the length of the input. -/
theorem lenDropWhileLe (p : α → Bool) (l : List α) : (l.dropWhile p).length ≤ l.length := by
  induction l with
  | nil => simp [List.dropWhile]
  | cons c t ih =>
    rw [List.dropWhile_cons]
    split
    · exact Nat.le_succ_of_le ih
    · simp

/-- takeWhile and dropWhile split the length of the input. -/
theorem lenTakeDropWhile (p : α → Bool) (l : List α) :
    (l.takeWhile p).length + (l.dropWhile p).length = l.length := by
  rw [← List.length_append, List.takeWhile_append_dropWhile]

/-- One or more repetitions of `\s+[A-Z][a-z]+` (applied with IGNORECASE, so
both classes are any letter), greedy; returns the matched text and the rest.
Each repetition consumes a nonempty whitespace run and a letter run of length
at least 2 (whitespace and letters are disjoint, so maximal munch is the
backtracking semantics).  The fuel argument only bounds the recursion; each
iteration consumes at least one character, so fuel equal to the length of the
input (as supplied by `capMore`) never runs out. -/
def capMoreF : Nat → List Char → Option (List Char × List Char)
  | 0, _ => none
  | fuel + 1, l =>
    if l.takeWhile isWsC = [] then none
    else
      let w := (l.dropWhile isWsC).takeWhile isLetterC
      if w.length < 2 then none
      else
        match capMoreF fuel ((l.dropWhile isWsC).dropWhile isLetterC) with
        | some (m, rest) => some (l.takeWhile isWsC ++ w ++ m, rest)
        | none => some (l.takeWhile isWsC ++ w, (l.dropWhile isWsC).dropWhile isLetterC)

def capMore (l : List Char) : Option (List Char × List Char) := capMoreF l.length l

/-- The name capture group `[A-Z][a-z]+(?:\s+[A-Z][a-z]+)+` under IGNORECASE:
a letter run of length at least 2, then `capMore`. -/
def capGroup (l : List Char) : Option (List Char × List Char) :=
  let w := l.takeWhile isLetterC
  if w.length < 2 then none
  else
    match capMore (l.dropWhile isLetterC) with
    | some (m, rest) => some (w ++ m, rest)
    | none => none

/-- Anchored matcher for the labelled name pattern
`(?:Name|Passenger|Customer)[:\s]+(<capGroup>)` with IGNORECASE. -/
def tryN1At (l : List Char) : Option (List Char) :=
  (oor (litCI (sl "name") l)
    (oor (litCI (sl "passenger") l) (litCI (sl "customer") l))).bind fun r =>
    if r.takeWhile isColWs = [] then none
    else (capGroup (r.dropWhile isColWs)).map (·.1)

/-- Rest of the title name pattern after a title literal: `\.?\s+(<capGroup>)`,
with the optional dot tried first (regex optional-greedy preference). -/
def afterTitle (r : List Char) : Option (List Char) :=
  let wsCap : List Char → Option (List Char) := fun x =>
    if x.takeWhile isWsC = [] then none
    else (capGroup (x.dropWhile isWsC)).map (·.1)
  oor (match r with
       | '.' :: t => wsCap t
       | _ => none)
    (wsCap r)

/-- Anchored matcher for the title name pattern
`(?:Mr|Mrs|Ms|Dr)\.?\s+(<capGroup>)` with IGNORECASE; alternatives are tried
in source order with full backtracking into the continuation ("Mr" can match
inside "Mrs." and fail at the dot, after which "Mrs" is tried). -/
def tryN2At (l : List Char) : Option (List Char) :=
  oor ((litCI (sl "mr") l).bind afterTitle)
    (oor ((litCI (sl "mrs") l).bind afterTitle)
      (oor ((litCI (sl "ms") l).bind afterTitle)
        ((litCI (sl "dr") l).bind afterTitle)))

/-- The name pattern cascade of extract_entities (first pattern searched over
the whole text first). -/
def nameMatch (t : List Char) : Option (List Char) :=
  oor (scanOpt tryN1At t) (scanOpt tryN2At t)

/-- Exactly `n` characters of class `p`. -/
def exactRun (p : Char → Bool) (n : Nat) (l : List Char) : Option (List Char) :=
  if (l.take n).length = n && (l.take n).all p then some (l.drop n) else none

/-- Word-boundary test for a position whose following character is a word
character: the preceding character must be absent or not a word character. -/
def bdryBefore (pv : Option Char) : Bool :=
  match pv with
  | none => true
  | some c => !isWordC c

/-- Word-boundary test after a match ending in a word character. -/
def bdryAfter (l : List Char) : Bool :=
  match l with
  | [] => true
  | c :: _ => !isWordC c

/-- Anchored matcher for a `\b`-delimited exact digit shape such as
`\b(\d{4}-\d{2}-\d{2})\b`: `ns` lists the digit-run lengths, `seps` the
separator between consecutive runs. -/
def tryDateShape (ns : List Nat) (sep : Char) (pv : Option Char) (l : List Char) :
    Option (List Char) :=
  if !bdryBefore pv then none
  else
    let rec go : List Nat → List Char → Option (List Char)
      | [], r => if bdryAfter r then some [] else none
      | n :: rest, r =>
        (exactRun isDigitC n r).bind fun r2 =>
          match rest with
          | [] => if bdryAfter r2 then some (r.take n) else none
          | _ :: _ =>
            match r2 with
            | c :: r3 =>
              if c = sep then (go rest r3).map fun cap => r.take n ++ c :: cap
              else none
            | [] => none
    go ns l

/-- Anchored matcher for the labelled date pattern
`(?:Date|Travel|Departure)[:\s]+(\d{1,2}<sep>\d{1,2}<sep>\d{2,4})` where each
separator is slash-or-dash (case-sensitive, no word boundary). -/
def tryD4At (l : List Char) : Option (List Char) :=
  (oor (litM (sl "Date") l)
    (oor (litM (sl "Travel") l) (litM (sl "Departure") l))).bind fun r =>
    if r.takeWhile isColWs = [] then none
    else
      let r2 := r.dropWhile isColWs
      cntTake isDigitC [2, 1] r2 fun l1 =>
        (sepM l1).bind fun s1 =>
          (cntTake isDigitC [2, 1] s1.2 fun l2 =>
            (sepM l2).bind fun s2 =>
              (cntTake isDigitC [4, 3, 2] s2.2 fun _ => some []).map
                fun cap2 => s2.1 :: cap2).map
            fun cap1 => s1.1 :: cap1

/-- The date pattern cascade of extract_entities. -/
def dateMatch (t : List Char) : Option (List Char) :=
  oor (scanOptP (tryDateShape [4, 2, 2] '-') none t)
    (oor (scanOptP (tryDateShape [2, 2, 4] '/') none t)
      (oor (scanOptP (tryDateShape [2, 2, 4] '-') none t)
        (scanOpt tryD4At t)))

/-- The amount capture group `([\d,]+(?:\.\d{2})?)`: maximal digit-or-comma
run, then optionally (greedily) a dot followed by exactly two digits. -/
def amtGroup (l : List Char) : Option (List Char) :=
  let run := l.takeWhile fun c => isDigitC c || c = ','
  if run = [] then none
  else
    match l.dropWhile (fun c => isDigitC c || c = ',') with
    | '.' :: d1 :: d2 :: _ =>
      if isDigitC d1 && isDigitC d2 then some (run ++ '.' :: [d1, d2]) else some run
    | _ => some run

/-- Anchored matcher for the symbol amount pattern `[₹$]\s*(<amtGroup>)`. -/
def tryA1At (l : List Char) : Option (List Char) :=
  match l with
  | c :: r => if c = '₹' || c = '$' then amtGroup (r.dropWhile isWsC) else none
  | [] => none

/-- Anchored matcher for the labelled amount pattern
`(?:Amount|Total|Price|Fare)[:\s]+[₹$]?\s*(<amtGroup>)` with IGNORECASE. -/
def tryA2At (l : List Char) : Option (List Char) :=
  (oor (litCI (sl "amount") l)
    (oor (litCI (sl "total") l)
      (oor (litCI (sl "price") l) (litCI (sl "fare") l)))).bind fun r =>
    if r.takeWhile isColWs = [] then none
    else
      let r2 := r.dropWhile isColWs
      let r3 := match r2 with
        | c :: t => if c = '₹' || c = '$' then t else r2
        | [] => r2
      amtGroup (r3.dropWhile isWsC)

/-- Anchored matcher for the rupee amount pattern
`(?:Rs\.?|INR)\s*(<amtGroup>)` with IGNORECASE; the optional dot after "Rs" is
tried with the continuation first, then without. -/
def tryA3At (l : List Char) : Option (List Char) :=
  oor ((litCI (sl "rs") l).bind fun r =>
      oor (match r with
           | '.' :: t => amtGroup (t.dropWhile isWsC)
           | _ => none)
        (amtGroup (r.dropWhile isWsC)))
    ((litCI (sl "inr") l).bind fun r => amtGroup (r.dropWhile isWsC))

/-- The amount pattern cascade of extract_entities. -/
def amountMatch (t : List Char) : Option (List Char) :=
  oor (scanOpt tryA1At t) (oor (scanOpt tryA2At t) (scanOpt tryA3At t))

/-- Anchored matcher for a labelled booking-id pattern
`<label>[:\s]+([A-Z0-9]{m,mx})` (case-sensitive): maximal upper-alnum run,
at least `m` long, captured greedily up to `mx` characters. -/
def tryBkAt (label : List Char) (m mx : Nat) (l : List Char) : Option (List Char) :=
  (litM label l).bind fun r =>
    if r.takeWhile isColWs = [] then none
    else
      let run := (r.dropWhile isColWs).takeWhile isUpAl
      if run.length < m then none else some (run.take mx)

/-- Anchored matcher for the bare booking-id pattern `\b([A-Z0-9]{6})\b`. -/
def tryB4At (pv : Option Char) (l : List Char) : Option (List Char) :=
  if !bdryBefore pv then none
  else
    let run6 := l.take 6
    if run6.length = 6 && run6.all isUpAl && bdryAfter (l.drop 6) then some run6
    else none

/-- The labelled PNR pattern `PNR[:\s]+([A-Z0-9]{6,10})`, searched first. -/
def pnrLabelSearch (t : List Char) : Option (List Char) :=
  scanOpt (tryBkAt (sl "PNR") 6 10) t

/-- The booking-id pattern cascade of extract_entities. -/
def bookingMatch (t : List Char) : Option (List Char) :=
  oor (pnrLabelSearch t)
    (oor (scanOpt (tryBkAt (sl "Booking") 6 12) t)
      (oor (scanOpt (tryBkAt (sl "ID") 6 12) t)
        (scanOptP tryB4At none t)))

/-- Anchored matcher for the route pattern
`([A-Za-z]+)\s+to\s+([A-Za-z]+)` with IGNORECASE (all adjacent classes are
disjoint, so maximal munch is the backtracking semantics). -/
def tryRtAt (l : List Char) : Option (List Char × List Char) :=
  let g1 := l.takeWhile isLetterC
  if g1 = [] then none
  else
    let r1 := l.dropWhile isLetterC
    if r1.takeWhile isWsC = [] then none
    else
      (litCI (sl "to") (r1.dropWhile isWsC)).bind fun r2 =>
        if r2.takeWhile isWsC = [] then none
        else
          let g2 := (r2.dropWhile isWsC).takeWhile isLetterC
          if g2 = [] then none else some (g1, g2)

/-- The route pattern of extract_entities (single pattern, first occurrence). -/
def routeMatch (t : List Char) : Option (List Char × List Char) :=
  scanOpt tryRtAt t

/-- The entity categories of an EntityRecord: the exact key set of the entity
dicts built by extract_entities. -/
inductive EKey where
  | name | date | amount | booking_id | origin | destination | route | passengers
deriving DecidableEq, Repr

/-- The Python string of an entity key. -/
def ekeyStr : EKey → List Char
  | .name => sl "name"
  | .date => sl "date"
  | .amount => sl "amount"
  | .booking_id => sl "booking_id"
  | .origin => sl "origin"
  | .destination => sl "destination"
  | .route => sl "route"
  | .passengers => sl "passengers"

/-- An entity value: a string or a nested passenger dict. -/
inductive EVal where
  | s (v : List Char)
  | p (v : PDict)
deriving DecidableEq, Repr

abbrev EDict := List (EKey × EVal)

/-- src/nlp_extractor.py, extract_entities. -/
def extract_entities (t : List Char) : EDict :=
  let e0 : EDict := []
  let e1 := match nameMatch t with
    | some g => dset e0 .name (.s (stripL g))
    | none => e0
  let e2 := match dateMatch t with
    | some g => dset e1 .date (.s g)
    | none => e1
  let e3 := match amountMatch t with
    | some g => dset e2 .amount (.s (stripL g))
    | none => e2
  let e4 := match bookingMatch t with
    | some g => dset e3 .booking_id (.s g)
    | none => e3
  let e5 := match routeMatch t with
    | some r =>
      dset (dset (dset e4 .origin (.s (stripL r.1))) .destination (.s (stripL r.2)))
        .route (.s (stripL r.1 ++ sl "-" ++ stripL r.2))
    | none => e4
  let pd := extract_passenger_info t
  if pd = [] then e5 else dset e5 .passengers (.p pd)

/-! ### src/frame_processor.py, merge_entities -/

/-- A frame result as seen by merge_entities: `frame_data.get('entities', {})`
yields the entity dict when present (error frames have none). -/
abbrev FrameRes := Option EDict

/-- Python `str(value)` of an entity value: a string is itself, a dict is its
repr (quoted keys, decimal ints, insertion order). -/
def pyRepr (v : EVal) : List Char :=
  match v with
  | .s l => l
  | .p d =>
    sl "\x7b" ++
      List.intercalate (sl ", ")
        (d.map fun kv => Char.ofNat 39 :: pkeyStr kv.1 ++ Char.ofNat 39 :: sl ": " ++ natStr kv.2) ++
      sl "\x7d"

/-- Whether a value is a Python `str` (`isinstance(value, str)`). -/
def isStrV : EVal → Bool
  | .s _ => true
  | .p _ => false

/-- One inner-loop step of merge_entities for `(key, value)`:
insert if absent, else replace only a present value by a strictly longer
incoming string. -/
def mergeOne (m : EDict) (k : EKey) (v : EVal) : EDict :=
  match dget m k with
  | none => dset m k v
  | some cur =>
    if isStrV v && (pyRepr cur).length < (pyRepr v).length then dset m k v else m

/-- Merge all entity pairs of one frame, in insertion order. -/
def mergeStep (m : EDict) (ents : EDict) : EDict :=
  ents.foldl (fun acc kv => mergeOne acc kv.1 kv.2) m

/-- src/frame_processor.py, merge_entities. -/
def merge_entities (frames : List FrameRes) : EDict :=
  frames.foldl (fun acc f => mergeStep acc (f.getD [])) []

/-! ### src/main.py, the rule-based QA core of ask_endpoint (lines 100-201) -/

/-- Keyword condition of QA rule group 1, with Python's operator precedence:
`'amount' in q or ('total' in q and any(k in q for k in [price, amount, fare]))`. -/
def qaCond1 (ql : List Char) : Bool :=
  inL (sl "amount") ql ||
    (inL (sl "total") ql &&
      (inL (sl "price") ql || inL (sl "amount") ql || inL (sl "fare") ql))

/-- QA rule groups 1-4 (one if/elif chain): returns `none` both when no
group's keywords match and when the selected group's entity field is absent. -/
def qaChain (e : EDict) (ql : List Char) : Option (List Char × List Char) :=
  if qaCond1 ql then
    match dget e .amount with
    | some v => some (sl "The amount is " ++ pyRepr v ++ sl ".",
                      sl "Amount found: " ++ pyRepr v)
    | none => none
  else if inL (sl "name") ql then
    match dget e .name with
    | some v => some (sl "The name is " ++ pyRepr v ++ sl ".",
                      sl "Name found: " ++ pyRepr v)
    | none => none
  else if inL (sl "date") ql || inL (sl "when") ql then
    match dget e .date with
    | some v => some (sl "The date is " ++ pyRepr v ++ sl ".",
                      sl "Date found: " ++ pyRepr v)
    | none => none
  else if inL (sl "pnr") ql || inL (sl "booking") ql || inL (sl "id") ql then
    e.findSome? fun kv =>
      if inL (sl "pnr") (lowerL (ekeyStr kv.1)) || inL (sl "id") (lowerL (ekeyStr kv.1)) ||
         inL (sl "booking") (lowerL (ekeyStr kv.1)) then
        some (sl "The " ++ ekeyStr kv.1 ++ sl " is " ++ pyRepr kv.2 ++ sl ".",
              ekeyStr kv.1 ++ sl ": " ++ pyRepr kv.2)
      else none
  else none

/-- QA rule group 5 (passenger sub-rules, evaluated only when groups 1-4
produced no answer). -/
def qaPassenger (p : PDict) (ql : List Char) : Option (List Char × List Char) :=
  if inL (sl "adult") ql && inL (sl "male") ql then
    match dget p .adult_male with
    | some n => some (sl "There are " ++ natStr n ++ sl " adult males.",
                      sl "adult_male: " ++ natStr n)
    | none => none
  else if inL (sl "adult") ql && inL (sl "female") ql then
    match dget p .adult_female with
    | some n => some (sl "There are " ++ natStr n ++ sl " adult females.",
                      sl "adult_female: " ++ natStr n)
    | none => none
  else if inL (sl "how many adults") ql || (inL (sl "how many") ql && inL (sl "adult") ql) then
    let male := dgetD p .adult_male 0
    let female := dgetD p .adult_female 0
    if 0 < male + female then
      some (sl "There are " ++ natStr (male + female) ++ sl " adults (" ++ natStr male ++
              sl " male, " ++ natStr female ++ sl " female).",
            sl "adult_male: " ++ natStr male ++ sl ", adult_female: " ++ natStr female)
    else none
  else if inL (sl "minor") ql || inL (sl "child") ql || inL (sl "children") ql ||
      inL (sl "kid") ql then
    if inL (sl "male") ql && inL (sl "minor") ql && (dget p .minor_male).isSome then
      match dget p .minor_male with
      | some n => some (sl "There are " ++ natStr n ++ sl " male minors.",
                        sl "minor_male: " ++ natStr n)
      | none => none
    else if inL (sl "female") ql && inL (sl "minor") ql && (dget p .minor_female).isSome then
      match dget p .minor_female with
      | some n => some (sl "There are " ++ natStr n ++ sl " female minors.",
                        sl "minor_female: " ++ natStr n)
      | none => none
    else
      let mt := dgetD p .minor 0 + dgetD p .minor_male 0 + dgetD p .minor_female 0
      if 0 < mt then
        some (sl "There are " ++ natStr mt ++ sl " minors.", sl "minors_total: " ++ natStr mt)
      else none
  else if (inL (sl "total") ql && inL (sl "passeng") ql) || inL (sl "how many passengers") ql ||
      (inL (sl "total") ql && inL (sl "pax") ql) then
    match dget p .total with
    | some n => some (sl "Total passengers are " ++ natStr n ++ sl ".",
                      sl "total: " ++ natStr n)
    | none =>
      let ts := sumNT p
      if 0 < ts then
        some (sl "Total passengers (inferred) are " ++ natStr ts ++ sl ".",
              sl "inferred_total: " ++ natStr ts)
      else none
  else none

/-- QA final fallback (rule group 6). -/
def qaFallback (e : EDict) : List Char × List Char :=
  match e with
  | [] => (sl "No relevant information found for this question.", sl "No data")
  | _ :: _ =>
    (sl "Found information: " ++
       List.intercalate (sl ", ") (e.map fun kv => ekeyStr kv.1 ++ sl ": " ++ pyRepr kv.2),
     sl "All extracted entities")

/-- src/main.py lines 100-201: the rule-based QA resolution over an entity
record and a question; returns `(answer, source)`. -/
def answer_question (e : EDict) (q : List Char) : List Char × List Char :=
  let ql := lowerL q
  match qaChain e ql with
  | some a => a
  | none =>
    let p : PDict :=
      match dget e .passengers with
      | some (.p d) => d
      | some (.s _) => []
      | none => []
    match qaPassenger p ql with
    | some a => a
    | none => qaFallback e

/-! ### Spec-side predicates and enumerations used by the claims -/

/-- An alphabetic word of length at least 2: what one `[A-Z][a-z]+` under
IGNORECASE matches maximally. -/
def isWordRun (w : List Char) : Bool := decide (2 ≤ w.length) && w.all isLetterC

/-- Shape of the text matched by the one-or-more repetition
`(?:\s+[A-Z][a-z]+)+` under IGNORECASE: one or more groups of a nonempty
whitespace run followed by a maximal alphabetic word of length at least 2. -/
inductive MoreWords : List Char → Prop where
  | last (s w : List Char) : s ≠ [] → (∀ c ∈ s, isWsC c = true) →
      isWordRun w = true → MoreWords (s ++ w)
  | step (s w x : List Char) : s ≠ [] → (∀ c ∈ s, isWsC c = true) →
      isWordRun w = true → headIsLetter x = false → MoreWords x →
      MoreWords (s ++ (w ++ x))

/-- A sequence of two or more alphabetic words, each of length at least 2,
separated by nonempty whitespace runs: the shape of every string the name
patterns can assign (capitalization not required, because the patterns are
compiled with IGNORECASE). -/
def WordSeq (n : List Char) : Prop :=
  ∃ w x, n = w ++ x ∧ isWordRun w = true ∧ headIsLetter x = false ∧ MoreWords x

/-- Split a string at every whitespace character (tokens between consecutive
whitespace characters are empty and are filtered out by the callers). -/
def splitWs (l : List Char) : List (List Char) :=
  l.foldr
    (fun c acc =>
      if isWsC c then [] :: acc
      else
        match acc with
        | w :: rest => (c :: w) :: rest
        | [] => [[c]])
    [[]]

/-- Letter run that is capitalized in the spec's sense: one upper-case letter
followed by one or more lower-case letters. -/
def capWordB (w : List Char) : Bool :=
  match w with
  | c :: rest => isUpperC c && rest ≠ [] && rest.all isLowerC
  | [] => false

/-- Modelled from the spec's words ("a capitalized two-plus-word token
sequence, i.e. two or more words each beginning with an uppercase letter
followed by lowercase letters"): two or more whitespace-separated words, each
capitalized.  Used only to compare the spec's claim with the code. -/
def specCapWords (l : List Char) : Bool :=
  let toks := (splitWs l).filter (fun w => w ≠ [])
  decide (2 ≤ toks.length) && toks.all capWordB

/-- The seven weekday names recognised by parse_date. -/
inductive Weekday where
  | monday | tuesday | wednesday | thursday | friday | saturday | sunday
deriving DecidableEq, Repr

/-- The lower-case name of a weekday. -/
def wdName : Weekday → List Char
  | .monday => sl "monday"
  | .tuesday => sl "tuesday"
  | .wednesday => sl "wednesday"
  | .thursday => sl "thursday"
  | .friday => sl "friday"
  | .saturday => sl "saturday"
  | .sunday => sl "sunday"

/-- The Python `date.weekday()` index of a weekday (Monday = 0). -/
def wdIdx : Weekday → Nat
  | .monday => 0
  | .tuesday => 1
  | .wednesday => 2
  | .thursday => 3
  | .friday => 4
  | .saturday => 5
  | .sunday => 6

/-- The weekday of an ordinal, as Python `date.weekday()` (Monday = 0). -/
def ordWeekday (o : Nat) : Nat := (o + 6) % 7

/-- The claim's passenger sum: adult_male + adult_female + minor + minor_male
+ minor_female, absent keys counted as 0. -/
def pcSum (p : PDict) : Nat :=
  dgetD p .adult_male 0 + dgetD p .adult_female 0 + dgetD p .minor 0 +
    dgetD p .minor_male 0 + dgetD p .minor_female 0

/-! ## Theorems: generic dictionary and scanning lemmas -/

theorem dget_dset_self [DecidableEq κ] (d : List (κ × α)) (k : κ) (v : α) :
    dget (dset d k v) k = some v := by
  induction d with
  | nil => simp [dset, dget]
  | cons kv t ih =>
    obtain ⟨k', v'⟩ := kv
    by_cases h : k' = k
    · simp [dset, dget, h]
    · simp [dset, dget, h, ih]

theorem dget_dset_ne [DecidableEq κ] (d : List (κ × α)) (k k2 : κ) (v : α) (h : k ≠ k2) :
    dget (dset d k v) k2 = dget d k2 := by
  induction d with
  | nil => simp [dset, dget, h]
  | cons kv t ih =>
    obtain ⟨k', v'⟩ := kv
    by_cases h' : k' = k
    · subst h'; simp [dset, dget, h]
    · simp [dset, dget, h']
      split <;> simp [ih]

theorem oor_some {a b : Option β} {g : β} (h : oor a b = some g) :
    a = some g ∨ b = some g := by
  cases a with
  | some x => exact Or.inl h
  | none => exact Or.inr h

theorem scanOpt_some {f : List Char → Option β} {P : β → Prop}
    (hf : ∀ s a, f s = some a → P a) :
    ∀ l a, scanOpt f l = some a → P a := by
  intro l
  induction l with
  | nil => exact fun a h => hf [] a h
  | cons c t ih =>
    intro a h
    unfold scanOpt at h
    cases hc : f (c :: t) with
    | some b =>
      rw [hc] at h
      simp only [] at h
      injection h with hba
      subst hba
      exact hf _ _ hc
    | none =>
      rw [hc] at h
      exact ih a h

/-! ## Theorems: the passenger-count section of parse_flight_query -/

/-- Any capture of a broken `(d+)...` pattern is a nonempty run of the literal
character 'd', so `int()` on it raises. -/
theorem tryCnt_pyInt {after : List Char → Bool} {l g : List Char}
    (h : tryCnt after l = some g) : pyInt g = none := by
  by_cases hds : l.takeWhile (fun c => c = 'd') = []
  · simp [tryCnt, hds] at h
  · by_cases haf :
      after ((l.dropWhile (fun c => c = 'd')).dropWhile (fun c => c = 's')) = true
    · have hg : g = l.takeWhile (fun c => c = 'd') := by
        simp [tryCnt, hds, haf] at h
        exact h.symm
      subst hg
      have hall : ¬ (l.takeWhile (fun c => c = 'd')).all isDigitC = true := by
        intro hcon
        obtain ⟨c, hc⟩ := List.exists_mem_of_ne_nil _ hds
        have h1 : c = 'd' := by simpa using List.mem_takeWhile_imp hc
        have h2 := List.all_eq_true.mp hcon c hc
        rw [h1] at h2
        exact absurd h2 (by decide)
      unfold pyInt
      rw [if_neg]
      intro hcon
      exact hall hcon.2
    · simp [tryCnt, hds, haf] at h

/-- Whichever pattern of a broken passenger cascade matches, `int()` raises. -/
theorem scanCnt_pyInt {after : List Char → Bool} {ql g : List Char}
    (h : scanOpt (tryCnt after) ql = some g) : pyInt g = none :=
  scanOpt_some (fun _ _ ha => tryCnt_pyInt ha) ql g h

/-- If the passenger section returns normally, no pattern matched, and the
result is exactly the single-adult default (in insertion order:
`total` first, then `adult_male`). -/
theorem passengerExtract_ok {ql : List Char} {pd : PDict}
    (h : passengerExtract ql = .ok pd) :
    pd = [(PKey.total, 1), (PKey.adult_male, 1)] := by
  unfold passengerExtract at h
  cases hm : oor (scanOpt (tryCnt afterQMale) ql) (scanOpt (tryCnt afterQMen) ql) with
  | some g =>
    have hpy : pyInt g = none := by
      rcases oor_some hm with h' | h'
      · exact scanCnt_pyInt h'
      · exact scanCnt_pyInt h'
    rw [hm] at h
    simp only [hpy] at h
    exact Except.noConfusion h
  | none =>
    rw [hm] at h
    cases hf : oor (scanOpt (tryCnt afterQFemale) ql) (scanOpt (tryCnt afterQWomen) ql) with
    | some g =>
      have hpy : pyInt g = none := by
        rcases oor_some hf with h' | h'
        · exact scanCnt_pyInt h'
        · exact scanCnt_pyInt h'
      rw [hf] at h
      simp only [hpy] at h
      exact Except.noConfusion h
    | none =>
      rw [hf] at h
      cases hmi : oor (scanOpt (tryCnt afterQFMinor) ql)
          (oor (scanOpt (tryCnt afterQMMinor) ql) (scanOpt (tryCnt afterQChild) ql)) with
      | some g =>
        have hpy : pyInt g = none := by
          rcases oor_some hmi with h' | h'
          · exact scanCnt_pyInt h'
          · rcases oor_some h' with h'' | h''
            · exact scanCnt_pyInt h''
            · exact scanCnt_pyInt h''
        rw [hmi] at h
        simp only [hpy] at h
        exact Except.noConfusion h
      | none =>
        rw [hmi] at h
        simp [sumNT, dset] at h
        exact h.symm

/-- Whenever parse_flight_query returns normally, its passengers dict is the
single-adult default. -/
theorem pfq_ok_passengers {q cur : List Char} {fz : List Char → Option Nat}
    {r : TravelIntent} (h : parse_flight_query q cur fz = .ok r) :
    r.passengers = [(PKey.total, 1), (PKey.adult_male, 1)] := by
  simp only [parse_flight_query] at h
  split at h
  · exact Except.noConfusion h
  · split at h
    · exact Except.noConfusion h
    · rename_i pd hpd
      injection h with h2
      rw [← h2]
      exact passengerExtract_ok hpd

/-! ## Claim theorems -/

/-- C10: for every query string on which parse_flight_query returns normally,
the returned passengers mapping is exactly the mapping
adult_male = 1, total = 1 (insertion order of the underlying dict: total
first); and every successful match of a passenger-count pattern, which is a
matcher of the form `tryCnt after`, captures a non-numeric group, on which
`int()` raises, so the call cannot return with a parsed count. -/
theorem C10_pfq_always_default_passengers :
    (∀ (q cur : List Char) (fz : List Char → Option Nat) (r : TravelIntent),
       parse_flight_query q cur fz = .ok r →
       r.passengers = [(PKey.total, 1), (PKey.adult_male, 1)]) ∧
    (∀ (after : List Char → Bool) (ql g : List Char),
       scanOpt (tryCnt after) ql = some g → pyInt g = none) :=
  ⟨fun _ _ _ _ h => pfq_ok_passengers h, fun _ _ _ h => scanCnt_pyInt h⟩

/-- Witness for C10 at the concrete query "hi". -/
theorem C10_witness :
    parse_flight_query (sl "hi") (sl "2024-01-01") (fun _ => none) =
      .ok ⟨sl "one_way", none, none, none, none, [(PKey.total, 1), (PKey.adult_male, 1)]⟩ ∧
    (⟨sl "one_way", none, none, none, none,
       [(PKey.total, 1), (PKey.adult_male, 1)]⟩ : TravelIntent).passengers =
      [(PKey.total, 1), (PKey.adult_male, 1)] :=
  ⟨rfl, C10_pfq_always_default_passengers.1 (sl "hi") (sl "2024-01-01") (fun _ => none) _ rfl⟩

/-- C1 (code bug): parse_flight_query is not total.  On the query "dman" with
the valid reference date 2024-03-04, the broken pattern
`(d+)s*(?:adults*)?(?:male|man|men)` matches with capture "d", and
`int("d")` raises ValueError, which propagates to the caller: the embedded
function returns an error instead of a TravelIntent. -/
theorem C1_pfq_raises_on_dman :
    parse_flight_query (sl "dman") (sl "2024-03-04") (fun _ => none) = .error () ∧
    scanOpt (tryCnt afterQMale) (lowerL (sl "dman")) = some (sl "d") ∧
    pyInt (sl "d") = none :=
  ⟨rfl, rfl, rfl⟩

/-- C5 (code bug): the route patterns contain literal `s+` instead of `\s+`,
so the query "from delhi to mumbai" matches neither route pattern and
parse_flight_query returns it with no origin or destination, although the
City Normalizer would map the two cities to DEL and BOM as the claim
expects. -/
theorem C5_route_never_matches_spaces :
    parse_flight_query (sl "from delhi to mumbai") (sl "2024-03-04") (fun _ => none) =
      .ok ⟨sl "one_way", none, none, none, none, [(PKey.total, 1), (PKey.adult_male, 1)]⟩ ∧
    scanOpt tryR1At (lowerL (sl "from delhi to mumbai")) = none ∧
    scanOpt tryR2At (lowerL (sl "from delhi to mumbai")) = none ∧
    normalize_city (sl "delhi") = sl "DEL" ∧
    normalize_city (sl "mumbai") = sl "BOM" :=
  ⟨rfl, rfl, rfl, rfl, rfl⟩

/-! ## Theorems: extract_entities field lemmas -/

/-- The passengers category of an extracted entity record is present exactly
when the Passenger Aggregator found something, and is then its result
unchanged. -/
theorem dget_extract_passengers (t : List Char) :
    dget (extract_entities t) EKey.passengers =
      if extract_passenger_info t = [] then none
      else some (.p (extract_passenger_info t)) := by
  unfold extract_entities
  cases nameMatch t <;> cases dateMatch t <;> cases amountMatch t <;>
    cases bookingMatch t <;> cases routeMatch t <;>
      by_cases hp : extract_passenger_info t = [] <;>
        simp [hp, dget_dset_self, dget_dset_ne, dget]

/-- The name category of an extracted entity record is exactly the (stripped)
capture of the name pattern cascade. -/
theorem dget_extract_name (t : List Char) :
    dget (extract_entities t) EKey.name = (nameMatch t).map fun g => .s (stripL g) := by
  unfold extract_entities
  cases nameMatch t <;> cases dateMatch t <;> cases amountMatch t <;>
    cases bookingMatch t <;> cases routeMatch t <;>
      by_cases hp : extract_passenger_info t = [] <;>
        simp [hp, dget_dset_self, dget_dset_ne, dget]

/-- The booking_id category of an extracted entity record is exactly the
capture of the booking-id pattern cascade. -/
theorem dget_extract_booking (t : List Char) :
    dget (extract_entities t) EKey.booking_id = (bookingMatch t).map .s := by
  unfold extract_entities
  cases nameMatch t <;> cases dateMatch t <;> cases amountMatch t <;>
    cases bookingMatch t <;> cases routeMatch t <;>
      by_cases hp : extract_passenger_info t = [] <;>
        simp [hp, dget_dset_self, dget_dset_ne, dget]

/-! ## Theorems: passenger total invariant -/

/-- The Passenger Aggregator's result is empty or carries a total equal to
the sum of the five count categories. -/
theorem epi_total_invariant (t : List Char) :
    extract_passenger_info t = [] ∨
    dget (extract_passenger_info t) PKey.total =
      some (pcSum (extract_passenger_info t)) := by
  unfold extract_passenger_info
  cases h1 : scanOpt (tryPCnt afterAdultMale) t <;>
  cases h2 : scanOpt (tryPCnt afterAdultFemale) t <;>
  cases h3 : scanOpt (tryPCnt afterFemaleMinor) t <;>
  cases h4 : scanOpt (tryPCnt afterMaleMinor) t <;>
  cases h5 : scanOpt (tryPCnt afterGenericMinor) t <;>
    simp [dset, dget, dgetD, pcSum, sumVals] <;> omega

/-- C2: every PassengerCount produced by extract_passenger_info is either
empty (no total key at all) or contains a total key equal to
adult_male + adult_female + minor + minor_male + minor_female with absent
keys counted as 0; and the passengers mapping of every TravelIntent that
parse_flight_query returns satisfies the same equation. -/
theorem C2_total_equals_sum :
    (∀ t : List Char,
       extract_passenger_info t = [] ∨
       dget (extract_passenger_info t) PKey.total =
         some (pcSum (extract_passenger_info t))) ∧
    (∀ (q cur : List Char) (fz : List Char → Option Nat) (r : TravelIntent),
       parse_flight_query q cur fz = .ok r →
       dget r.passengers PKey.total = some (pcSum r.passengers)) := by
  refine ⟨epi_total_invariant, fun q cur fz r h => ?_⟩
  rw [pfq_ok_passengers h]
  rfl

/-- Witness for C2: the invariant instantiated at the text "2 men and 1 child"
and at the parse of the query "hi". -/
theorem C2_witness :
    (extract_passenger_info (sl "2 men and 1 child") =
       [(PKey.adult_male, 2), (PKey.minor, 1), (PKey.total, 3)] ∧
     (extract_passenger_info (sl "2 men and 1 child") = [] ∨
      dget (extract_passenger_info (sl "2 men and 1 child")) PKey.total =
        some (pcSum (extract_passenger_info (sl "2 men and 1 child"))))) ∧
    (parse_flight_query (sl "hi") (sl "2024-01-01") (fun _ => none) =
       .ok ⟨sl "one_way", none, none, none, none, [(PKey.total, 1), (PKey.adult_male, 1)]⟩ ∧
     dget (⟨sl "one_way", none, none, none, none,
        [(PKey.total, 1), (PKey.adult_male, 1)]⟩ : TravelIntent).passengers PKey.total =
       some (pcSum (⟨sl "one_way", none, none, none, none,
        [(PKey.total, 1), (PKey.adult_male, 1)]⟩ : TravelIntent).passengers)) :=
  ⟨⟨rfl, C2_total_equals_sum.1 (sl "2 men and 1 child")⟩,
   ⟨rfl, C2_total_equals_sum.2 (sl "hi") (sl "2024-01-01") (fun _ => none) _ rfl⟩⟩

/-- C3: every query on which parse_flight_query returns has passengers equal
to exactly the one-adult-male default mapping (adult_male = 1, total = 1); and
extract_entities never applies this default: when the Passenger Aggregator
finds nothing the passengers category is absent, and otherwise it is the
aggregator's result unchanged. -/
theorem C3_default_one_adult_male :
    (∀ (q cur : List Char) (fz : List Char → Option Nat) (r : TravelIntent),
       parse_flight_query q cur fz = .ok r →
       r.passengers = [(PKey.total, 1), (PKey.adult_male, 1)]) ∧
    (∀ t : List Char, extract_passenger_info t = [] →
       dget (extract_entities t) EKey.passengers = none) ∧
    (∀ t : List Char, extract_passenger_info t ≠ [] →
       dget (extract_entities t) EKey.passengers =
         some (.p (extract_passenger_info t))) := by
  refine ⟨fun _ _ _ _ h => pfq_ok_passengers h, fun t ht => ?_, fun t ht => ?_⟩
  · rw [dget_extract_passengers, if_pos ht]
  · rw [dget_extract_passengers, if_neg ht]

/-- Witness for C3 at the claim's own example query "Delhi to Mumbai
tomorrow" and at the texts "hello" (no passengers found) and "2 men". -/
theorem C3_witness :
    (parse_flight_query (sl "delhi to mumbai tomorrow") (sl "2024-03-04") (fun _ => none) =
       .ok ⟨sl "one_way", none, none, none, none, [(PKey.total, 1), (PKey.adult_male, 1)]⟩ ∧
     (⟨sl "one_way", none, none, none, none,
        [(PKey.total, 1), (PKey.adult_male, 1)]⟩ : TravelIntent).passengers =
       [(PKey.total, 1), (PKey.adult_male, 1)]) ∧
    (extract_passenger_info (sl "hello") = [] ∧
     dget (extract_entities (sl "hello")) EKey.passengers = none) ∧
    (extract_passenger_info (sl "2 men") ≠ [] ∧
     dget (extract_entities (sl "2 men")) EKey.passengers =
       some (.p (extract_passenger_info (sl "2 men")))) :=
  ⟨⟨rfl, C3_default_one_adult_male.1 (sl "delhi to mumbai tomorrow") (sl "2024-03-04")
      (fun _ => none) _ rfl⟩,
   ⟨rfl, C3_default_one_adult_male.2.1 (sl "hello") rfl⟩,
   ⟨by decide, C3_default_one_adult_male.2.2 (sl "2 men") (by decide)⟩⟩

/-- C6: the booking-id patterns are tried in fixed priority order with first
match winning: whenever the labelled "PNR:" pattern (6-10 uppercase
alphanumerics) matches anywhere in the text, its capture is the booking_id,
regardless of any bare 6-character token; in particular the text
"PNR: ABC123 and XYZ789" yields booking_id "ABC123" even though the bare
last-resort pattern alone would find "XYZ789". -/
theorem C6_booking_priority :
    (∀ t g : List Char, pnrLabelSearch t = some g →
       dget (extract_entities t) EKey.booking_id = some (.s g)) ∧
    dget (extract_entities (sl "PNR: ABC123 and XYZ789")) EKey.booking_id =
      some (.s (sl "ABC123")) ∧
    scanOptP tryB4At none (sl "PNR: ABC123 and XYZ789") = some (sl "ABC123") ∧
    scanOptP tryB4At none (sl "and XYZ789") = some (sl "XYZ789") := by
  refine ⟨fun t g h => ?_, rfl, rfl, rfl⟩
  rw [dget_extract_booking, bookingMatch, h]
  rfl

/-- Witness for C6's universal part at the text "PNR: ABC123 and XYZ789". -/
theorem C6_witness :
    pnrLabelSearch (sl "PNR: ABC123 and XYZ789") = some (sl "ABC123") ∧
    dget (extract_entities (sl "PNR: ABC123 and XYZ789")) EKey.booking_id =
      some (.s (sl "ABC123")) :=
  ⟨rfl, C6_booking_priority.1 (sl "PNR: ABC123 and XYZ789") (sl "ABC123") rfl⟩

/-! ## Theorems: cross-frame merge -/

theorem dget_append [DecidableEq κ] (a b : List (κ × α)) (k : κ) :
    dget (a ++ b) k = (dget a k).orElse fun _ => dget b k := by
  induction a with
  | nil => simp [dget]
  | cons kv t ih =>
    obtain ⟨k', v'⟩ := kv
    by_cases h : k' = k <;> simp [dget, h, ih]

theorem dset_absent [DecidableEq κ] (m : List (κ × α)) (k : κ) (v : α)
    (h : dget m k = none) : dset m k v = m ++ [(k, v)] := by
  induction m with
  | nil => simp [dset]
  | cons kv t ih =>
    obtain ⟨k', v'⟩ := kv
    by_cases h' : k' = k
    · simp [dget, h'] at h
    · simp [dget, h'] at h
      simp [dset, h', ih h]

theorem dget_of_mem_nodup {e : List (κ × α)} [DecidableEq κ]
    (hnd : (e.map Prod.fst).Nodup) {k : κ} {v : α} (hm : (k, v) ∈ e) :
    dget e k = some v := by
  induction e with
  | nil => cases hm
  | cons kv t ih =>
    obtain ⟨k', v'⟩ := kv
    rcases List.mem_cons.mp hm with h | h
    · obtain ⟨rfl, rfl⟩ := Prod.mk.injEq .. ▸ h
      simp [dget]
    · have hk : k' ≠ k := by
        intro hkk
        subst hkk
        exact (List.nodup_cons.mp hnd).1 (List.mem_map.mpr ⟨(k', v), h, rfl⟩)
      simp [dget, hk]
      exact ih (List.nodup_cons.mp hnd).2 h

/-- Re-merging an already-present identical value never replaces it. -/
theorem mergeOne_self {m : EDict} {k : EKey} {v : EVal}
    (h : dget m k = some v) : mergeOne m k v = m := by
  unfold mergeOne
  rw [h]
  simp

theorem foldl_fixed {f : β → γ → β} {m : β} {l : List γ}
    (h : ∀ x ∈ l, f m x = m) : l.foldl f m = m := by
  induction l with
  | nil => rfl
  | cons x t ih =>
    rw [List.foldl_cons, h x (List.mem_cons_self x t)]
    exact ih fun y hy => h y (List.mem_cons_of_mem x hy)

/-- Merging into a record that lacks all incoming keys inserts them all in
order. -/
theorem mergeStep_all_new :
    ∀ (e m : EDict), (∀ k ∈ e.map Prod.fst, dget m k = none) →
      (e.map Prod.fst).Nodup → mergeStep m e = m ++ e := by
  intro e
  induction e with
  | nil => intro m _ _; simp [mergeStep]
  | cons kv t ih =>
    intro m hnone hnd
    obtain ⟨k, v⟩ := kv
    have h0 : dget m k = none := hnone k (by simp)
    have h1 : mergeOne m k v = m ++ [(k, v)] := by
      unfold mergeOne
      rw [h0, dset_absent m k v h0]
    have h2 : ∀ k' ∈ t.map Prod.fst, dget (m ++ [(k, v)]) k' = none := by
      intro k' hk'
      have hkk : k ≠ k' := by
        intro hkk
        subst hkk
        exact (List.nodup_cons.mp hnd).1 hk'
      rw [dget_append, hnone k' (by simp [hk'])]
      simp [dget, hkk]
    calc mergeStep m ((k, v) :: t)
        = mergeStep (mergeOne m k v) t := rfl
      _ = mergeStep (m ++ [(k, v)]) t := by rw [h1]
      _ = (m ++ [(k, v)]) ++ t := ih (m ++ [(k, v)]) h2 (List.nodup_cons.mp hnd).2
      _ = m ++ ((k, v) :: t) := by simp

/-- Merging a record into itself changes nothing. -/
theorem mergeStep_self {e : EDict} (hnd : (e.map Prod.fst).Nodup) :
    mergeStep e e = e := by
  unfold mergeStep
  refine foldl_fixed fun kv hkv => ?_
  exact mergeOne_self (dget_of_mem_nodup hnd (by simpa using hkv))

/-- C8: merging the same frame result twice yields the same entity record as
merging it once (the frame's entity dict, as any Python dict, has no
duplicate keys). -/
theorem C8_merge_idempotent (R : FrameRes)
    (hnd : ((R.getD []).map Prod.fst).Nodup) :
    merge_entities [R, R] = merge_entities [R] := by
  have h1 : merge_entities [R] = mergeStep [] (R.getD []) := rfl
  have h2 : merge_entities [R, R] = mergeStep (mergeStep [] (R.getD [])) (R.getD []) := rfl
  have h3 : mergeStep [] (R.getD []) = R.getD [] := by
    have := mergeStep_all_new (R.getD []) [] (fun k _ => rfl) hnd
    simpa using this
  rw [h1, h2, h3, mergeStep_self hnd]

/-- Witness for C8 at a one-entity frame. -/
theorem C8_witness :
    ((((some [(EKey.name, EVal.s (sl "John Smith"))] : FrameRes).getD []).map
        Prod.fst).Nodup) ∧
    merge_entities [some [(EKey.name, EVal.s (sl "John Smith"))],
        some [(EKey.name, EVal.s (sl "John Smith"))]] =
      merge_entities [some [(EKey.name, EVal.s (sl "John Smith"))]] :=
  ⟨by decide, C8_merge_idempotent (some [(EKey.name, EVal.s (sl "John Smith"))]) (by decide)⟩

/-! ## Theorems: date resolution -/

/-- Arithmetic of the weekday delta: it lands strictly after the reference
day, within 7 days, on the requested weekday, skips no earlier occurrence,
and is a full week when the reference day already has that weekday. -/
theorem daysAhead_spec (t o : Nat) (ht : t < 7) :
    0 < daysAhead t o ∧ daysAhead t o ≤ 7 ∧
    ordWeekday (o + daysAhead t o) = t ∧
    (∀ k, o < k → k < o + daysAhead t o → ordWeekday k ≠ t) ∧
    (ordWeekday o = t → daysAhead t o = 7) := by
  unfold daysAhead orSeven ordWeekday
  by_cases h0 : (t + 7 - (o + 6) % 7) % 7 = 0
  · rw [if_pos h0]
    exact ⟨by omega, by omega, by omega, fun k h1 h2 => by omega, fun h => by omega⟩
  · rw [if_neg h0]
    exact ⟨by omega, by omega, by omega, fun k h1 h2 => by omega, fun h => by omega⟩

/-- C7: for every valid reference date and every weekday name w, parse_date
on "next w" returns, formatted, the reference ordinal plus the weekday delta,
and that target is the first occurrence of weekday w strictly after the
reference date; when the reference date itself falls on w the delta is a full
7 days, never 0. -/
theorem C7_next_weekday (w : Weekday) (refStr : List Char) (o : Nat)
    (fz : List Char → Option Nat) (h : strptimeYMD refStr = some o) :
    parse_date (sl "next " ++ wdName w) refStr fz =
      .ok (fmtOrd (o + daysAhead (wdIdx w) o)) ∧
    0 < daysAhead (wdIdx w) o ∧ daysAhead (wdIdx w) o ≤ 7 ∧
    ordWeekday (o + daysAhead (wdIdx w) o) = wdIdx w ∧
    (∀ k, o < k → k < o + daysAhead (wdIdx w) o → ordWeekday k ≠ wdIdx w) ∧
    (ordWeekday o = wdIdx w → daysAhead (wdIdx w) o = 7) := by
  have ha := daysAhead_spec (wdIdx w) o (by cases w <;> decide)
  refine ⟨?_, ha.1, ha.2.1, ha.2.2.1, ha.2.2.2.1, ha.2.2.2.2⟩
  cases w <;> (unfold parse_date; rw [h]; rfl)

/-- Witness for C7: with reference date 2024-03-04 (ordinal 738949, a
Monday), "next monday" resolves to 2024-03-11. -/
theorem C7_witness :
    strptimeYMD (sl "2024-03-04") = some 738949 ∧
    parse_date (sl "next monday") (sl "2024-03-04") (fun _ => none) =
      .ok (fmtOrd (738949 + daysAhead (wdIdx .monday) 738949)) ∧
    fmtOrd (738949 + daysAhead (wdIdx .monday) 738949) = sl "2024-03-11" ∧
    ordWeekday 738949 = wdIdx .monday :=
  ⟨rfl, (C7_next_weekday .monday (sl "2024-03-04") 738949 (fun _ => none) rfl).1,
   rfl, rfl⟩

/-! ## Theorems: question resolver -/

/-- Every answer the passenger rule group can produce starts "There are "
(letter 'r' at index 3) or "Total passengers" (letter 'o' at index 1). -/
theorem qaPassenger_shape (p : PDict) (ql : List Char) (a : List Char × List Char)
    (h : qaPassenger p ql = some a) :
    a.1.get? 1 = some 'o' ∨ a.1.get? 3 = some 'r' := by
  unfold qaPassenger at h
  try simp only [] at h
  repeat' split at h
  all_goals first
    | exact Option.noConfusion h
    | (injection h with h'; subst h'; exact Or.inl rfl)
    | (injection h with h'; subst h'; exact Or.inr rfl)

/-- The final fallback answer starts with 'F' or 'N'. -/
theorem qaFallback_shape (e : EDict) :
    (qaFallback e).1.get? 0 = some 'F' ∨ (qaFallback e).1.get? 0 = some 'N' := by
  cases e with
  | nil => exact Or.inr rfl
  | cons kv t => exact Or.inl rfl

/-- C4 counterexample: on a record with name but not amount and a question
containing both the amount keyword and the word "name", the resolver does not
fall through to the name rule; it answers with the final fallback listing
instead of the name answer. -/
theorem C4_counterexample :
    dget ([(EKey.name, EVal.s (sl "John Smith"))] : EDict) EKey.name =
      some (.s (sl "John Smith")) ∧
    dget ([(EKey.name, EVal.s (sl "John Smith"))] : EDict) EKey.amount = none ∧
    inL (sl "amount") (lowerL (sl "what is the amount and name")) = true ∧
    inL (sl "name") (lowerL (sl "what is the amount and name")) = true ∧
    answer_question [(EKey.name, EVal.s (sl "John Smith"))]
        (sl "what is the amount and name") =
      (sl "Found information: name: John Smith", sl "All extracted entities") ∧
    answer_question [(EKey.name, EVal.s (sl "John Smith"))]
        (sl "what is the amount and name") ≠
      (sl "The name is John Smith.", sl "Name found: John Smith") :=
  ⟨rfl, rfl, rfl, rfl, rfl, by decide⟩

/-- C4 amended: rule groups 1-4 share one if/elif chain, so when the amount
group's keywords match a question whose record has no amount, resolution
skips the later keyword groups entirely and falls through to the passenger
rules and the final fallback; in particular a record with name but without
amount, asked a question containing an amount keyword, never yields the name
answer (and no branch raises: the resolver is a total function returning an
answer/source pair). -/
theorem C4_amended (e : EDict) (q n : List Char)
    (hname : dget e EKey.name = some (.s n))
    (hamt : dget e EKey.amount = none)
    (hq : inL (sl "amount") (lowerL q) = true) :
    (answer_question e q).1 ≠ sl "The name is " ++ n ++ sl "." := by
  intro hcon
  have hc1 : qaCond1 (lowerL q) = true := by
    unfold qaCond1
    rw [hq]
    rfl
  have hchain : qaChain e (lowerL q) = none := by
    unfold qaChain
    rw [if_pos hc1, hamt]
  simp only [answer_question] at hcon
  rw [hchain] at hcon
  cases hp : qaPassenger
      (match dget e EKey.passengers with
       | some (.p d) => d
       | some (.s _) => []
       | none => []) (lowerL q) with
  | some a =>
    rw [hp] at hcon
    rcases qaPassenger_shape _ _ _ hp with h | h
    · rw [hcon] at h
      have h2 : ((sl "The name is " ++ n) ++ sl ".").get? 1 = some 'h' := rfl
      rw [h2] at h
      exact absurd h (by decide)
    · rw [hcon] at h
      have h2 : ((sl "The name is " ++ n) ++ sl ".").get? 3 = some ' ' := rfl
      rw [h2] at h
      exact absurd h (by decide)
  | none =>
    rw [hp] at hcon
    rcases qaFallback_shape e with h | h <;>
      · rw [hcon] at h
        have h2 : ((sl "The name is " ++ n) ++ sl ".").get? 0 = some 'T' := rfl
        rw [h2] at h
        exact absurd h (by decide)

/-- Witness for the amended C4 at the counterexample's record and question. -/
theorem C4_amended_witness :
    dget ([(EKey.name, EVal.s (sl "John Smith"))] : EDict) EKey.name =
      some (.s (sl "John Smith")) ∧
    dget ([(EKey.name, EVal.s (sl "John Smith"))] : EDict) EKey.amount = none ∧
    inL (sl "amount") (lowerL (sl "what is the amount and name")) = true ∧
    (answer_question [(EKey.name, EVal.s (sl "John Smith"))]
        (sl "what is the amount and name")).1 ≠
      sl "The name is " ++ sl "John Smith" ++ sl "." :=
  ⟨rfl, rfl, rfl,
   C4_amended [(EKey.name, EVal.s (sl "John Smith"))]
     (sl "what is the amount and name") (sl "John Smith") rfl rfl rfl⟩

/-! ## Theorems: shape of name captures -/

theorem ws_not_letter {c : Char} (h : isWsC c = true) : isLetterC c = false := by
  unfold isWsC at h
  simp only [Bool.or_eq_true, decide_eq_true_eq] at h
  rcases h with ((((h | h) | h) | h) | h) | h <;> subst h <;> decide

theorem letter_not_ws {c : Char} (h : isLetterC c = true) : isWsC c = false := by
  by_cases hw : isWsC c = true
  · rw [ws_not_letter hw] at h
    exact absurd h (by decide)
  · simpa using hw

theorem takeWhile_append_all {p : α → Bool} {a : List α} (b : List α)
    (h : ∀ x ∈ a, p x = true) :
    (a ++ b).takeWhile p = a ++ b.takeWhile p := by
  induction a with
  | nil => rfl
  | cons c t ih =>
    rw [List.cons_append, List.takeWhile_cons, if_pos (h c (by simp)),
      ih fun x hx => h x (by simp [hx]), List.cons_append]

theorem dropWhile_append_all {p : α → Bool} {a : List α} (b : List α)
    (h : ∀ x ∈ a, p x = true) :
    (a ++ b).dropWhile p = b.dropWhile p := by
  induction a with
  | nil => rfl
  | cons c t ih =>
    rw [List.cons_append, List.dropWhile_cons, if_pos (h c (by simp))]
    exact ih fun x hx => h x (by simp [hx])

theorem takeWhile_nil_of_head {p : α → Bool} {c : α} (t : List α)
    (h : p c = false) : (c :: t).takeWhile p = [] := by
  rw [List.takeWhile_cons, if_neg (by simp [h])]

theorem dropWhile_id_of_head {p : α → Bool} {c : α} (t : List α)
    (h : p c = false) : (c :: t).dropWhile p = c :: t := by
  rw [List.dropWhile_cons, if_neg (by simp [h])]

theorem headIsLetter_append {a b : List Char} (h : headIsLetter a = true) :
    headIsLetter (a ++ b) = true := by
  cases a with
  | nil => exact absurd h (by decide)
  | cons c t => exact h

theorem lastIsLetter_append {a b : List Char} (h : lastIsLetter b = true) :
    lastIsLetter (a ++ b) = true := by
  unfold lastIsLetter at *
  rw [List.reverse_append]
  exact headIsLetter_append h

theorem lastIsLetter_of_all {w : List Char} (hne : w ≠ [])
    (hall : ∀ c ∈ w, isLetterC c = true) : lastIsLetter w = true := by
  unfold lastIsLetter
  obtain ⟨c, t, hct⟩ := List.exists_cons_of_ne_nil
    (fun hcon => hne (by simpa using congrArg List.reverse hcon) : w.reverse ≠ [])
  rw [hct]
  exact hall c (by
    have : c ∈ w.reverse := by rw [hct]; simp
    simpa using this)

/-- Shape of the text matched by the one-or-more repetition of
whitespace-plus-word: it satisfies `MoreWords`, begins with a non-letter
(whitespace), is nonempty, and ends with a letter. -/
theorem capMoreF_shape (f : Nat) :
    ∀ l m rest : List Char, capMoreF f l = some (m, rest) →
      MoreWords m ∧ headIsLetter m = false ∧ m ≠ [] ∧ lastIsLetter m = true := by
  induction f with
  | zero => intro l m rest h; exact Option.noConfusion h
  | succ fuel ih =>
    intro l m rest h
    unfold capMoreF at h
    split at h
    · exact Option.noConfusion h
    · rename_i hs
      simp only [] at h
      split at h
      · exact Option.noConfusion h
      · rename_i hwlen
        have hsall : ∀ x ∈ l.takeWhile isWsC, isWsC x = true := fun x hx =>
          List.mem_takeWhile_imp hx
        have hwall : ∀ x ∈ (l.dropWhile isWsC).takeWhile isLetterC, isLetterC x = true :=
          fun x hx => List.mem_takeWhile_imp hx
        have hwlen' : 2 ≤ ((l.dropWhile isWsC).takeWhile isLetterC).length := by omega
        have hwne : (l.dropWhile isWsC).takeWhile isLetterC ≠ [] := by
          intro hcon
          rw [hcon] at hwlen'
          simp at hwlen'
        have hwrun : isWordRun ((l.dropWhile isWsC).takeWhile isLetterC) = true := by
          unfold isWordRun
          simp only [Bool.and_eq_true, decide_eq_true_eq, List.all_eq_true]
          exact ⟨hwlen', hwall⟩
        have hshead : headIsLetter (l.takeWhile isWsC) = false := by
          obtain ⟨c, t, hct⟩ := List.exists_cons_of_ne_nil hs
          rw [hct]
          exact ws_not_letter (hsall c (by rw [hct]; simp))
        cases hrec : capMoreF fuel ((l.dropWhile isWsC).dropWhile isLetterC) with
        | some pr =>
          rw [hrec] at h
          obtain ⟨m', rest'⟩ := pr
          obtain ⟨hmore', hhead', hne', hlast'⟩ := ih _ m' rest' hrec
          injection h with h1
          have hm : l.takeWhile isWsC ++
              ((l.dropWhile isWsC).takeWhile isLetterC ++ m') = m := by
            have := congrArg Prod.fst h1
            simpa [List.append_assoc] using this
          refine ⟨?_, ?_, ?_, ?_⟩
          · rw [← hm]
            exact MoreWords.step _ _ _ hs hsall hwrun hhead' hmore'
          · rw [← hm]
            obtain ⟨c, t, hct⟩ := List.exists_cons_of_ne_nil hs
            rw [hct]
            exact ws_not_letter (hsall c (by rw [hct]; simp))
          · rw [← hm]
            simp [hs]
          · rw [← hm]
            exact lastIsLetter_append (lastIsLetter_append hlast')
        | none =>
          rw [hrec] at h
          injection h with h1
          have hm : l.takeWhile isWsC ++
              (l.dropWhile isWsC).takeWhile isLetterC = m := congrArg Prod.fst h1
          refine ⟨?_, ?_, ?_, ?_⟩
          · rw [← hm]
            exact MoreWords.last _ _ hs hsall hwrun
          · rw [← hm]
            obtain ⟨c, t, hct⟩ := List.exists_cons_of_ne_nil hs
            rw [hct]
            exact ws_not_letter (hsall c (by rw [hct]; simp))
          · rw [← hm]
            simp [hs]
          · rw [← hm]
            exact lastIsLetter_append (lastIsLetter_of_all hwne hwall)

/-- Shape of a full name capture: two-plus alphabetic words, starting and
ending with a letter. -/
theorem capGroup_shape {l m rest : List Char} (h : capGroup l = some (m, rest)) :
    WordSeq m ∧ headIsLetter m = true ∧ lastIsLetter m = true := by
  unfold capGroup at h
  simp only [] at h
  split at h
  · exact Option.noConfusion h
  · rename_i hwlen
    cases hrec : capMore (l.dropWhile isLetterC) with
    | some pr =>
      rw [hrec] at h
      obtain ⟨m', rest'⟩ := pr
      obtain ⟨hmore', hhead', hne', hlast'⟩ := capMoreF_shape _ _ m' rest' hrec
      injection h with h1
      have hm : l.takeWhile isLetterC ++ m' = m := congrArg Prod.fst h1
      have hwall : ∀ x ∈ l.takeWhile isLetterC, isLetterC x = true := fun x hx =>
        List.mem_takeWhile_imp hx
      have hwlen' : 2 ≤ (l.takeWhile isLetterC).length := by omega
      have hwne : l.takeWhile isLetterC ≠ [] := by
        intro hcon
        rw [hcon] at hwlen'
        simp at hwlen'
      refine ⟨?_, ?_, ?_⟩
      · exact ⟨l.takeWhile isLetterC, m', hm.symm,
          by unfold isWordRun
             simp only [Bool.and_eq_true, decide_eq_true_eq, List.all_eq_true]
             exact ⟨hwlen', hwall⟩,
          hhead', hmore'⟩
      · rw [← hm]
        apply headIsLetter_append
        obtain ⟨c, t, hct⟩ := List.exists_cons_of_ne_nil hwne
        rw [hct]
        exact hwall c (by rw [hct]; simp)
      · rw [← hm]
        exact lastIsLetter_append hlast'
    | none =>
      rw [hrec] at h
      exact Option.noConfusion h

/-- Stripping a string that starts and ends with a letter changes nothing. -/
theorem stripL_id {m : List Char} (hh : headIsLetter m = true)
    (hl : lastIsLetter m = true) : stripL m = m := by
  unfold stripL
  have h1 : m.dropWhile isWsC = m := by
    cases m with
    | nil => rfl
    | cons c t =>
      have hc : isLetterC c = true := hh
      exact dropWhile_id_of_head _ (letter_not_ws hc)
  rw [h1]
  have h2 : m.reverse.dropWhile isWsC = m.reverse := by
    cases hmr : m.reverse with
    | nil => rfl
    | cons c t =>
      have hlc : isLetterC c = true := by
        unfold lastIsLetter at hl
        rw [hmr] at hl
        exact hl
      exact dropWhile_id_of_head _ (letter_not_ws hlc)
  rw [h2, List.reverse_reverse]

/-- Any capture of the labelled name pattern matcher is a capGroup capture. -/
theorem tryN1At_cap {l g : List Char} (h : tryN1At l = some g) :
    ∃ x rest, capGroup x = some (g, rest) := by
  unfold tryN1At at h
  cases hlab : oor (litCI (sl "name") l)
      (oor (litCI (sl "passenger") l) (litCI (sl "customer") l)) with
  | none => rw [hlab] at h; exact Option.noConfusion h
  | some r =>
    rw [hlab] at h
    simp only [Option.bind_eq_bind, Option.some_bind] at h
    split at h
    · exact Option.noConfusion h
    · cases hcg : capGroup (r.dropWhile isColWs) with
      | none => rw [hcg] at h; exact Option.noConfusion h
      | some pr =>
        rw [hcg] at h
        obtain ⟨m, rest⟩ := pr
        injection h with h1
        simp only [] at h1
        exact ⟨r.dropWhile isColWs, rest, by rw [hcg, h1]⟩

/-- Any capture of the title continuation is a capGroup capture. -/
theorem afterTitle_cap {r g : List Char} (h : afterTitle r = some g) :
    ∃ x rest, capGroup x = some (g, rest) := by
  have hws : ∀ x : List Char,
      (if x.takeWhile isWsC = [] then none
       else (capGroup (x.dropWhile isWsC)).map (·.1)) = some g →
      ∃ y rest, capGroup y = some (g, rest) := by
    intro x hx
    split at hx
    · exact Option.noConfusion hx
    · cases hcg : capGroup (x.dropWhile isWsC) with
      | none => rw [hcg] at hx; exact Option.noConfusion hx
      | some pr =>
        rw [hcg] at hx
        obtain ⟨m, rest⟩ := pr
        injection hx with h1
        simp only [] at h1
        exact ⟨x.dropWhile isWsC, rest, by rw [hcg, h1]⟩
  unfold afterTitle at h
  simp only [] at h
  rcases oor_some h with h1 | h1
  · split at h1
    · exact hws _ h1
    · exact Option.noConfusion h1
  · exact hws _ h1

/-- Any capture of the title name pattern matcher is a capGroup capture. -/
theorem tryN2At_cap {l g : List Char} (h : tryN2At l = some g) :
    ∃ x rest, capGroup x = some (g, rest) := by
  unfold tryN2At at h
  have step : ∀ w : List Char, (litCI w l).bind afterTitle = some g →
      ∃ x rest, capGroup x = some (g, rest) := by
    intro w hw
    cases hlit : litCI w l with
    | none => rw [hlit] at hw; exact Option.noConfusion hw
    | some r =>
      rw [hlit] at hw
      exact afterTitle_cap hw
  rcases oor_some h with h1 | h1
  · exact step _ h1
  · rcases oor_some h1 with h2 | h2
    · exact step _ h2
    · rcases oor_some h2 with h3 | h3
      · exact step _ h3
      · exact step _ h3

/-- Any capture of the whole name cascade is a capGroup capture. -/
theorem nameMatch_cap {t g : List Char} (h : nameMatch t = some g) :
    ∃ x rest, capGroup x = some (g, rest) := by
  unfold nameMatch at h
  rcases oor_some h with h1 | h1
  · exact scanOpt_some (fun _ _ ha => tryN1At_cap ha) t g h1
  · exact scanOpt_some (fun _ _ ha => tryN2At_cap ha) t g h1

/-- C9 counterexample: the name patterns are compiled with IGNORECASE, so the
lower-case text "name: abc def" is assigned the name "abc def", which is not
a capitalized word sequence in the spec's sense. -/
theorem C9_counterexample :
    dget (extract_entities (sl "name: abc def")) EKey.name = some (.s (sl "abc def")) ∧
    specCapWords (sl "abc def") = false ∧
    specCapWords (sl "John Smith") = true :=
  ⟨rfl, rfl, rfl⟩

/-- C9 amended: extract_entities assigns the name category only when a
Name/Passenger/Customer label or a Mr/Mrs/Ms/Dr title is followed by a
two-plus-word alphabetic token sequence, each word at least two letters;
because the patterns carry IGNORECASE, the words need not be capitalized.
Every assigned name therefore has the word-sequence shape `WordSeq`. -/
theorem C9_amended (t n : List Char)
    (h : dget (extract_entities t) EKey.name = some (.s n)) : WordSeq n := by
  rw [dget_extract_name] at h
  cases hm : nameMatch t with
  | none => rw [hm] at h; exact Option.noConfusion h
  | some g =>
    rw [hm] at h
    simp only [Option.map_some'] at h
    injection h with h1
    injection h1 with h2
    obtain ⟨x, rest, hcg⟩ := nameMatch_cap hm
    obtain ⟨hw, hh, hl⟩ := capGroup_shape hcg
    rw [← h2, stripL_id hh hl]
    exact hw

/-- Witness for the amended C9 at the text "name: abc def". -/
theorem C9_amended_witness :
    dget (extract_entities (sl "name: abc def")) EKey.name = some (.s (sl "abc def")) ∧
    WordSeq (sl "abc def") :=
  ⟨rfl, C9_amended (sl "name: abc def") (sl "abc def") rfl⟩
